import Mathlib

/-!
Verification of the docscan document-processing core.

This file gives a shallow embedding, in Lean 4, of the numeric core of the
docscan repository (`doc-processing.service.ts` and its callers), and proves
properties of the embedded definitions.

Modelling conventions:
* JavaScript numbers are modelled by exact rationals (`ℚ`).  Where a value is
  stored into a `Uint8ClampedArray`, the store is modelled by `u8round`
  (clamp to `[0,255]` and round half to even, the ECMAScript conversion).
  For the grayscale average `(r+g+b)/3` the exact value is never a
  half-integer and is at distance at least `1/6` from every half-integer, so
  the double-precision rounding of the quotient cannot change the stored
  byte; the rational model is exact there.
* `Uint8ClampedArray`/`ImageData` buffers are modelled by `List ℕ` of RGBA
  bytes together with explicit width/height.
* `Array.prototype.sort` with comparator `(a, b) => a.y - b.y` is a stable
  sort (ES2019) by the key `y`; every stable sort by the same key computes
  the same list, so it is modelled by `List.insertionSort` with the
  corresponding non-strict relation, which is stable.
-/

/-- A 2-D point `{x, y}` as used for document corners
(`EdgeDetectionService`), with exact rational coordinates. -/
@[ext]
structure Pt where
  x : ℚ
  y : ℚ
deriving DecidableEq

instance : Inhabited Pt := ⟨⟨0, 0⟩⟩

/-- `points.slice().sort((a, b) => a.y - b.y)`: stable sort by `y`. -/
def sortByY (points : List Pt) : List Pt :=
  points.insertionSort (fun p q => p.y ≤ q.y)

/-- `.sort((a, b) => a.x - b.x)`: stable sort by `x`. -/
def sortByX (points : List Pt) : List Pt :=
  points.insertionSort (fun p q => p.x ≤ q.x)

/-- `EdgeDetectionService.orderPoints`: sort the points by `y`; the first two
are the top pair and the next two (`slice(2, 4)`) the bottom pair; each pair
is then sorted by `x`; the result lists top-left, top-right, bottom-right,
bottom-left. -/
def orderPoints (points : List Pt) : List Pt :=
  let sorted := sortByY points
  let top := sortByX (sorted.take 2)
  let bottom := sortByX ((sorted.drop 2).take 2)
  [top.getD 0 default, top.getD 1 default, bottom.getD 1 default, bottom.getD 0 default]

example :
    orderPoints [⟨9, 10⟩, ⟨0, 0⟩, ⟨1, 11⟩, ⟨10, 1⟩] = [⟨0, 0⟩, ⟨10, 1⟩, ⟨9, 10⟩, ⟨1, 11⟩] := by
  decide

example :
    orderPoints [⟨2, 0⟩, ⟨3, 0⟩, ⟨0, 0⟩, ⟨1, 0⟩] = [⟨2, 0⟩, ⟨3, 0⟩, ⟨1, 0⟩, ⟨0, 0⟩] := by
  decide

instance : IsTotal Pt (fun p q => p.y ≤ q.y) := ⟨fun a b => le_total a.y b.y⟩

instance : IsTrans Pt (fun p q => p.y ≤ q.y) := ⟨fun _ _ _ h1 h2 => le_trans h1 h2⟩

instance : IsTotal Pt (fun p q => p.x ≤ q.x) := ⟨fun a b => le_total a.x b.x⟩

instance : IsTrans Pt (fun p q => p.x ≤ q.x) := ⟨fun _ _ _ h1 h2 => le_trans h1 h2⟩

lemma length_eq_four {α : Type} {m : List α} (h : m.length = 4) :
    ∃ a b c d, m = [a, b, c, d] := by
  match m with
  | [a, b, c, d] => exact ⟨a, b, c, d, rfl⟩
  | [] | [_] | [_, _] | [_, _, _] => simp at h
  | _ :: _ :: _ :: _ :: _ :: t => simp at h

lemma perm_pair {α : Type} {w x a b : α} (h : [w, x].Perm [a, b]) :
    (w = a ∧ x = b) ∨ (w = b ∧ x = a) := by
  have hw : w ∈ [a, b] := h.subset (by simp)
  simp only [List.mem_cons, List.mem_singleton, List.not_mem_nil, or_false] at hw
  rcases hw with rfl | rfl
  · refine Or.inl ⟨rfl, ?_⟩
    have h2 := List.perm_singleton.mp h.cons_inv
    simpa using h2
  · refine Or.inr ⟨rfl, ?_⟩
    have h2 := List.perm_singleton.mp (h.trans (List.Perm.swap w _ [])).cons_inv
    simpa using h2

lemma sortByX_pair (a b : Pt) :
    sortByX [a, b] = if a.x ≤ b.x then [a, b] else [b, a] := by
  simp [sortByX]

lemma sortByX_pair_of_le (u v : Pt) (hle : u.x ≤ v.x) : sortByX [u, v] = [u, v] := by
  rw [sortByX_pair, if_pos hle]

lemma sortByX_pair_swap (u v : Pt) (hle : u.x ≤ v.x) (heq : u.x = v.x → u = v) :
    sortByX [v, u] = [u, v] := by
  rw [sortByX_pair]
  by_cases h : v.x ≤ u.x
  · rw [if_pos h, heq (le_antisymm hle h)]
  · rw [if_neg h]

lemma orderPoints_eval (l : List Pt) (a b c d : Pt) (h : sortByY l = [a, b, c, d]) :
    orderPoints l =
      [(sortByX [a, b]).getD 0 default, (sortByX [a, b]).getD 1 default,
       (sortByX [c, d]).getD 1 default, (sortByX [c, d]).getD 0 default] := by
  simp [orderPoints, h]

/-- C1 (amended): `orderPoints` is permutation-invariant whenever the two
smallest `y`-coordinates are strictly below the two largest `y`-coordinates:
every permutation of the four points is then mapped to the same canonical
sequence top-left, top-right, bottom-right, bottom-left. -/
theorem orderPoints_perm_invariant
    (tl tr br bl : Pt)
    (hgap : max tl.y tr.y < min br.y bl.y)
    (htop : tl.x < tr.x ∨ (tl.x = tr.x ∧ tl.y ≤ tr.y))
    (hbot : bl.x < br.x ∨ (bl.x = br.x ∧ bl.y ≤ br.y))
    (l : List Pt) (hl : l.Perm [tl, tr, br, bl]) :
    orderPoints l = [tl, tr, br, bl] := by
  have hperm : (sortByY l).Perm [tl, tr, br, bl] :=
    (List.perm_insertionSort _ l).trans hl
  have hsorted : List.Sorted (fun p q : Pt => p.y ≤ q.y) (sortByY l) :=
    List.sorted_insertionSort _ l
  have hlen : (sortByY l).length = 4 := by simpa using hperm.length_eq
  obtain ⟨p0, p1, p2, p3, heq⟩ := length_eq_four hlen
  rw [heq] at hperm hsorted
  have h01 : p0.y ≤ p1.y := List.rel_of_sorted_cons hsorted p1 (by simp)
  have h12 : p1.y ≤ p2.y :=
    List.rel_of_sorted_cons (List.sorted_cons.mp hsorted).2 p2 (by simp)
  have h23 : p2.y ≤ p3.y :=
    List.rel_of_sorted_cons
      (List.sorted_cons.mp (List.sorted_cons.mp hsorted).2).2 p3 (by simp)
  set K := min br.y bl.y with hK
  have htlK : tl.y < K := lt_of_le_of_lt (le_max_left _ _) hgap
  have htrK : tr.y < K := lt_of_le_of_lt (le_max_right _ _) hgap
  have hbrK : ¬br.y < K := not_lt.mpr (min_le_left _ _)
  have hblK : ¬bl.y < K := not_lt.mpr (min_le_right _ _)
  have hftop := hperm.filter (fun p => decide (p.y < K))
  have hfbot := hperm.filter (fun p => decide (K ≤ p.y))
  rw [show ([tl, tr, br, bl].filter fun p => decide (p.y < K)) = [tl, tr] by
    simp [List.filter_cons, htlK, htrK, hbrK, hblK]] at hftop
  rw [show ([tl, tr, br, bl].filter fun p => decide (K ≤ p.y)) = [br, bl] by
    simp [List.filter_cons, not_le.mpr htlK, not_le.mpr htrK, not_lt.mp hbrK,
      not_lt.mp hblK]] at hfbot
  by_cases c1 : p1.y < K
  case neg =>
    exfalso
    have c2 : ¬p2.y < K := fun h => c1 (lt_of_le_of_lt h12 h)
    have c3 : ¬p3.y < K := fun h => c1 (lt_of_le_of_lt (le_trans h12 h23) h)
    have hlen2 : ([p0, p1, p2, p3].filter fun p => decide (p.y < K)).length = 2 :=
      hftop.length_eq
    by_cases c0 : p0.y < K <;> simp [List.filter_cons, c0, c1, c2, c3] at hlen2
  case pos =>
  have c0 : p0.y < K := lt_of_le_of_lt h01 c1
  by_cases c2 : p2.y < K
  case pos =>
    exfalso
    have hlen2 : ([p0, p1, p2, p3].filter fun p => decide (p.y < K)).length = 2 :=
      hftop.length_eq
    by_cases c3 : p3.y < K <;> simp [List.filter_cons, c0, c1, c2, c3] at hlen2
  case neg =>
  have c3 : ¬p3.y < K := fun h => c2 (lt_of_le_of_lt h23 h)
  rw [show ([p0, p1, p2, p3].filter fun p => decide (p.y < K)) = [p0, p1] by
    simp [List.filter_cons, c0, c1, c2, c3]] at hftop
  rw [show ([p0, p1, p2, p3].filter fun p => decide (K ≤ p.y)) = [p2, p3] by
    simp [List.filter_cons, not_le.mpr c0, not_le.mpr c1, not_lt.mp c2,
      not_lt.mp c3]] at hfbot
  rw [orderPoints_eval l p0 p1 p2 p3 heq]
  have htople : tl.x ≤ tr.x := htop.elim le_of_lt fun h => le_of_eq h.1
  have hbotle : bl.x ≤ br.x := hbot.elim le_of_lt fun h => le_of_eq h.1
  have htopeq : tl.x = tr.x → tl.y ≤ tr.y := fun hx =>
    htop.elim (fun hlt => absurd hx (ne_of_lt hlt)) fun h => h.2
  have hboteq : bl.x = br.x → bl.y ≤ br.y := fun hx =>
    hbot.elim (fun hlt => absurd hx (ne_of_lt hlt)) fun h => h.2
  rcases perm_pair hftop with ⟨hp0, hp1⟩ | ⟨hp0, hp1⟩ <;>
    rcases perm_pair hfbot with ⟨hp2, hp3⟩ | ⟨hp2, hp3⟩ <;>
    rw [hp0, hp1, hp2, hp3]
  · -- top sorted as [tl, tr], bottom as [br, bl]
    rw [sortByX_pair_of_le tl tr htople,
      sortByX_pair_swap bl br hbotle fun hx =>
        Pt.ext hx (le_antisymm (hboteq hx) (hp3 ▸ hp2 ▸ h23))]
    rfl
  · -- top [tl, tr], bottom [bl, br]
    rw [sortByX_pair_of_le tl tr htople, sortByX_pair_of_le bl br hbotle]
    rfl
  · -- top [tr, tl], bottom [br, bl]
    rw [sortByX_pair_swap tl tr htople fun hx =>
        Pt.ext hx (le_antisymm (htopeq hx) (hp1 ▸ hp0 ▸ h01)),
      sortByX_pair_swap bl br hbotle fun hx =>
        Pt.ext hx (le_antisymm (hboteq hx) (hp3 ▸ hp2 ▸ h23))]
    rfl
  · -- top [tr, tl], bottom [bl, br]
    rw [sortByX_pair_swap tl tr htople fun hx =>
        Pt.ext hx (le_antisymm (htopeq hx) (hp1 ▸ hp0 ▸ h01)),
      sortByX_pair_of_le bl br hbotle]
    rfl

/-- C1 (counterexample): with a tie in `y` across the top/bottom boundary,
two orderings of the same four points produce different outputs of
`orderPoints`; the claimed invariance over all 24 permutations fails. -/
theorem orderPoints_not_perm_invariant :
    ([⟨2, 0⟩, ⟨3, 0⟩, ⟨0, 0⟩, ⟨1, 0⟩] : List Pt).Perm
        [⟨0, 0⟩, ⟨1, 0⟩, ⟨2, 0⟩, ⟨3, 0⟩] ∧
      orderPoints [⟨2, 0⟩, ⟨3, 0⟩, ⟨0, 0⟩, ⟨1, 0⟩] ≠
        orderPoints [⟨0, 0⟩, ⟨1, 0⟩, ⟨2, 0⟩, ⟨3, 0⟩] := by
  constructor
  · decide
  · decide

/-- C1 (witness): the amended invariance theorem applied at a concrete
quadrilateral and a concrete permutation of it. -/
theorem orderPoints_perm_invariant_witness :
    (max (0 : ℚ) 1 < min (10 : ℚ) 11) ∧
      orderPoints [⟨9, 10⟩, ⟨0, 0⟩, ⟨1, 11⟩, ⟨10, 1⟩] =
        [⟨0, 0⟩, ⟨10, 1⟩, ⟨9, 10⟩, ⟨1, 11⟩] :=
  ⟨by decide,
    orderPoints_perm_invariant ⟨0, 0⟩ ⟨10, 1⟩ ⟨9, 10⟩ ⟨1, 11⟩ (by decide)
      (by decide) (by decide) _ (by decide)⟩

/-- `Uint8ClampedArray` store of a JS number: clamp to `[0, 255]` and round
to the nearest integer, ties to even (the ECMAScript conversion). -/
def u8round (q : ℚ) : ℕ :=
  if q ≤ 0 then 0
  else if 255 ≤ q then 255
  else
    let f : ℤ := ⌊q⌋
    let r : ℚ := q - f
    if r < 1 / 2 then f.toNat
    else if 1 / 2 < r then (f + 1).toNat
    else if f % 2 = 0 then f.toNat else (f + 1).toNat

/-- The `ImageData` object: width, height and the RGBA byte array. -/
structure ImageData where
  width : ℕ
  height : ℕ
  data : List ℕ
deriving DecidableEq

/-- Common shape of the per-pixel filter loops (`for (i = 0; ...; i += 4)`):
the R, G, B channels of each pixel are rewritten from that pixel's previous
R, G, B values, and the alpha byte is left untouched. -/
def pixelMap (f : ℕ → ℕ → ℕ → ℕ × ℕ × ℕ) (data : List ℕ) : List ℕ :=
  (List.range data.length).map fun i =>
    let r := data.getD (4 * (i / 4)) 0
    let g := data.getD (4 * (i / 4) + 1) 0
    let b := data.getD (4 * (i / 4) + 2) 0
    if i % 4 = 0 then (f r g b).1
    else if i % 4 = 1 then (f r g b).2.1
    else if i % 4 = 2 then (f r g b).2.2
    else data.getD i 0

/-- `applyGrayscale`: simple average `(r + g + b) / 3` written to R, G, B. -/
def applyGrayscale (data : List ℕ) : List ℕ :=
  pixelMap (fun r g b =>
    let gray := u8round (((r : ℚ) + g + b) / 3)
    (gray, gray, gray)) data

/-- `applyPrintBW`: luminance grayscale pushed through the precomputed gamma
lookup table `lut` (the table entries come from `Math.pow`, which has no
exact rational value, so the table is a parameter of the model). -/
def applyPrintBW (lut : ℕ → ℕ) (data : List ℕ) : List ℕ :=
  pixelMap (fun r g b =>
    let gray : ℚ := (299 / 1000) * r + (587 / 1000) * g + (114 / 1000) * b
    let enhanced := lut ⌊gray⌋.toNat
    (enhanced, enhanced, enhanced)) data

/-- `applyHighContrast`: grayscale, contrast gain about 128, darken by 20,
clamped to `[0, 255]`. -/
def applyHighContrast (data : List ℕ) : List ℕ :=
  pixelMap (fun r g b =>
    let gray : ℚ := ((r : ℚ) + g + b) / 3
    let contrast : ℚ := 11 / 5
    let factor : ℚ := (259 * (contrast + 255)) / (255 * (259 - contrast))
    let enhanced : ℚ := factor * (gray - 128) + 128
    let v := u8round (max 0 (min 255 (enhanced - 20)))
    (v, v, v)) data

/-- `applyInvert`: negative of each color channel. -/
def applyInvert (data : List ℕ) : List ℕ :=
  pixelMap (fun r g b => (255 - r, 255 - g, 255 - b)) data

/-- `applySepia`: fixed color matrix, each channel capped at 255. -/
def applySepia (data : List ℕ) : List ℕ :=
  pixelMap (fun r g b =>
    (u8round (min 255 ((393 / 1000 : ℚ) * r + (769 / 1000) * g + (189 / 1000) * b)),
     u8round (min 255 ((349 / 1000 : ℚ) * r + (686 / 1000) * g + (168 / 1000) * b)),
     u8round (min 255 ((272 / 1000 : ℚ) * r + (534 / 1000) * g + (131 / 1000) * b)))) data

/-- `applyBrightness`: add `amount` to each channel, capped at 255. -/
def applyBrightness (data : List ℕ) (amount : ℕ) : List ℕ :=
  pixelMap (fun r g b =>
    (min 255 (r + amount), min 255 (g + amount), min 255 (b + amount))) data

/-- One pixel of `applyVibrant`: when the pixel is chromatic
(`max - min > 0`), each channel is pushed away from the channel average by
a saturation factor of 1.5 and clamped to `[0, 255]`; otherwise the pixel
is left as it was. -/
def vibrantPixel (r g b : ℕ) : ℕ × ℕ × ℕ :=
  let maxv := max r (max g b)
  let minv := min r (min g b)
  let delta := maxv - minv
  if 0 < delta then
    let saturation : ℚ := 3 / 2
    let avg : ℚ := ((r : ℚ) + g + b) / 3
    (u8round (max 0 (min 255 (avg + ((r : ℚ) - avg) * saturation))),
     u8round (max 0 (min 255 (avg + ((g : ℚ) - avg) * saturation))),
     u8round (max 0 (min 255 (avg + ((b : ℚ) - avg) * saturation))))
  else (r, g, b)

/-- `applyVibrant`: saturation boost, per pixel. -/
def applyVibrant (data : List ℕ) : List ℕ :=
  pixelMap vibrantPixel data

lemma getD_map_range (n : ℕ) (g : ℕ → ℕ) (i : ℕ) (hi : i < n) :
    ((List.range n).map g).getD i 0 = g i := by
  rw [List.getD_eq_getElem?_getD, List.getElem?_map, List.getElem?_range hi]
  rfl

lemma pixelMap_getD_channel (f : ℕ → ℕ → ℕ → ℕ × ℕ × ℕ) (data : List ℕ) (p j : ℕ)
    (hj : j < 4) (hlen : 4 * p + j < data.length) :
    (pixelMap f data).getD (4 * p + j) 0 =
      (if j = 0 then (f (data.getD (4 * p) 0) (data.getD (4 * p + 1) 0)
          (data.getD (4 * p + 2) 0)).1
       else if j = 1 then (f (data.getD (4 * p) 0) (data.getD (4 * p + 1) 0)
          (data.getD (4 * p + 2) 0)).2.1
       else if j = 2 then (f (data.getD (4 * p) 0) (data.getD (4 * p + 1) 0)
          (data.getD (4 * p + 2) 0)).2.2
       else data.getD (4 * p + j) 0) := by
  rw [pixelMap, getD_map_range _ _ _ hlen]
  have e1 : (4 * p + j) / 4 = p := by omega
  have e2 : (4 * p + j) % 4 = j := by omega
  simp only [e1, e2]

lemma vibrantPixel_achromatic (r : ℕ) : vibrantPixel r r r = (r, r, r) := by
  simp [vibrantPixel]

/-- C10: `applyVibrant` is the identity on achromatic pixels: when a pixel
has R = G = B, all four of its bytes (R, G, B and alpha) are unchanged. -/
theorem applyVibrant_achromatic_identity (data : List ℕ) (p : ℕ)
    (hp : 4 * p + 3 < data.length)
    (hach : data.getD (4 * p) 0 = data.getD (4 * p + 1) 0 ∧
      data.getD (4 * p + 1) 0 = data.getD (4 * p + 2) 0) :
    (applyVibrant data).getD (4 * p) 0 = data.getD (4 * p) 0 ∧
      (applyVibrant data).getD (4 * p + 1) 0 = data.getD (4 * p + 1) 0 ∧
      (applyVibrant data).getD (4 * p + 2) 0 = data.getD (4 * p + 2) 0 ∧
      (applyVibrant data).getD (4 * p + 3) 0 = data.getD (4 * p + 3) 0 := by
  obtain ⟨e1, e2⟩ := hach
  have h0 := pixelMap_getD_channel vibrantPixel data p 0 (by omega) (by omega)
  have h1 := pixelMap_getD_channel vibrantPixel data p 1 (by omega) (by omega)
  have h2 := pixelMap_getD_channel vibrantPixel data p 2 (by omega) (by omega)
  have h3 := pixelMap_getD_channel vibrantPixel data p 3 (by omega) (by omega)
  simp only [show 4 * p + 0 = 4 * p by omega] at h0
  rw [← e1, ← e2, ← e1] at h0 h1 h2
  rw [vibrantPixel_achromatic] at h0 h1 h2
  refine ⟨?_, ?_, ?_, ?_⟩
  · rw [applyVibrant, h0]
    simp
  · rw [applyVibrant, h1]
    simpa using e1
  · rw [applyVibrant, h2]
    simpa using e1.trans e2
  · rw [applyVibrant, h3]
    simp

/-- C10 (witness): a concrete achromatic pixel is left unchanged. -/
theorem applyVibrant_achromatic_identity_witness :
    4 * 0 + 3 < ([7, 7, 7, 9] : List ℕ).length ∧
      (applyVibrant [7, 7, 7, 9]).getD (4 * 0) 0 = ([7, 7, 7, 9] : List ℕ).getD (4 * 0) 0 ∧
      (applyVibrant [7, 7, 7, 9]).getD (4 * 0 + 1) 0 = ([7, 7, 7, 9] : List ℕ).getD (4 * 0 + 1) 0 ∧
      (applyVibrant [7, 7, 7, 9]).getD (4 * 0 + 2) 0 = ([7, 7, 7, 9] : List ℕ).getD (4 * 0 + 2) 0 ∧
      (applyVibrant [7, 7, 7, 9]).getD (4 * 0 + 3) 0 = ([7, 7, 7, 9] : List ℕ).getD (4 * 0 + 3) 0 :=
  ⟨by decide, applyVibrant_achromatic_identity [7, 7, 7, 9] 0 (by decide) (by decide)⟩

/-- Grayscale plane computed by `applyAdaptiveThreshold` before binarizing:
`grayValues[i / 4] = (data[i] + data[i + 1] + data[i + 2]) / 3`, each value
stored into a `Uint8ClampedArray`. -/
def grayValues (data : List ℕ) (numPixels : ℕ) : List ℕ :=
  (List.range numPixels).map fun p =>
    u8round (((data.getD (4 * p) 0 : ℚ) + data.getD (4 * p + 1) 0 +
      data.getD (4 * p + 2) 0) / 3)

/-- Inner loop of the adaptive-threshold window scan: `wx` runs from `x - 7`
to `x + 7`; out-of-bounds columns are skipped (`continue`); in-bounds gray
samples are summed and counted. -/
def rowAcc (gray : List ℕ) (w x : ℕ) (wy : ℤ) (acc : ℕ × ℕ) : ℕ × ℕ :=
  (List.range 15).foldl
    (fun (acc2 : ℕ × ℕ) (j : ℕ) =>
      if (x : ℤ) - 7 + (j : ℤ) < 0 ∨ (w : ℤ) ≤ (x : ℤ) - 7 + (j : ℤ) then acc2
      else (acc2.1 + gray.getD (wy.toNat * w + ((x : ℤ) - 7 + (j : ℤ)).toNat) 0, acc2.2 + 1))
    acc

/-- Outer loop of the window scan: `wy` runs from `y - 7` to `y + 7`;
out-of-bounds rows are skipped. -/
def windowAcc (gray : List ℕ) (w h x y : ℕ) : ℕ × ℕ :=
  (List.range 15).foldl
    (fun (acc : ℕ × ℕ) (i : ℕ) =>
      if (y : ℤ) - 7 + (i : ℤ) < 0 ∨ (h : ℤ) ≤ (y : ℤ) - 7 + (i : ℤ) then acc
      else rowAcc gray w x ((y : ℤ) - 7 + (i : ℤ)) acc)
    (0, 0)

/-- `DocumentProcessingService.applyAdaptiveThreshold`: grayscale conversion
followed by per-pixel binarization against the mean of the 15×15 window
clipped to the image (`sum / count`): the pixel becomes 0 when its gray
value is strictly below `localMean - 10` and 255 otherwise, written to R, G
and B; alpha bytes, and bytes beyond the `width*height` pixel grid, are not
written by the loops. -/
def applyAdaptiveThreshold (w h : ℕ) (data : List ℕ) : List ℕ :=
  (List.range data.length).map fun idx =>
    if 4 * (w * h) ≤ idx ∨ idx % 4 = 3 then data.getD idx 0
    else
      let gray := grayValues data (w * h)
      let p := idx / 4
      let sc := windowAcc gray w h (p % w) (p / w)
      let localMean : ℚ := (sc.1 : ℚ) / (sc.2 : ℚ)
      if (gray.getD p 0 : ℚ) < localMean - 10 then 0 else 255

/-- The filter selectors accepted by `applyFilter`. -/
inductive FilterKind where
  | original
  | grayscale
  | adaptiveThreshold
  | highContrast
  | invert
  | sepia
  | brightness
  | vibrant
  | printBW
deriving DecidableEq

/-- The dispatch of `applyFilter` on the working copy's byte array. -/
def filterBytes (lut : ℕ → ℕ) (filter : FilterKind) (w h : ℕ) (data : List ℕ) : List ℕ :=
  match filter with
  | .original => data
  | .grayscale => applyGrayscale data
  | .adaptiveThreshold => applyAdaptiveThreshold w h data
  | .highContrast => applyHighContrast data
  | .invert => applyInvert data
  | .sepia => applySepia data
  | .brightness => applyBrightness data 40
  | .vibrant => applyVibrant data
  | .printBW => applyPrintBW lut data

/-- `DocumentProcessingService.applyFilter` as a transformer of the pair
(canvas contents, original `ImageData`): a fresh working copy of
`originalData` is made (`new Uint8ClampedArray(originalData.data)`), the
selected filter rewrites the copy, and the copy is painted onto the canvas
(`putImageData`); for `original` the untouched `originalData` is painted
directly.  The second component is `originalData` as the call leaves it. -/
def applyFilter (lut : ℕ → ℕ) (filter : FilterKind) (_canvas originalData : ImageData) :
    ImageData × ImageData :=
  if filter = FilterKind.original then (originalData, originalData)
  else
    (⟨originalData.width, originalData.height,
      filterBytes lut filter originalData.width originalData.height originalData.data⟩,
     originalData)

/-- C3: applying the `original` filter paints the canvas with data
byte-identical to the original input buffer, whatever was on the canvas. -/
theorem applyFilter_original_byte_identical (lut : ℕ → ℕ)
    (canvas originalData : ImageData) :
    (applyFilter lut FilterKind.original canvas originalData).1 = originalData := rfl

/-- C4: `applyFilter` never mutates the supplied original `ImageData`, and,
as a consequence, applying filter `f` and then filter `g` starting from the
same original produces exactly the canvas that applying `g` directly
produces. -/
theorem applyFilter_no_mutation_no_compounding (lut : ℕ → ℕ) (f g : FilterKind)
    (canvas originalData : ImageData) :
    (applyFilter lut f canvas originalData).2 = originalData ∧
      (applyFilter lut g (applyFilter lut f canvas originalData).1
          (applyFilter lut f canvas originalData).2).1 =
        (applyFilter lut g canvas originalData).1 := by
  constructor
  · by_cases h : f = FilterKind.original <;> simp [applyFilter, h]
  · by_cases hf : f = FilterKind.original <;> by_cases hg : g = FilterKind.original <;>
      simp [applyFilter, hf, hg]


lemma foldl_guard_sum_count (P : ℕ → Prop) [DecidablePred P] (S : ℕ → ℕ) (C : ℕ)
    (n : ℕ) (a : ℕ × ℕ) :
    (List.range n).foldl
        (fun acc i => if P i then acc else (acc.1 + S i, acc.2 + C)) a =
      (a.1 + ∑ i ∈ Finset.range n, if P i then 0 else S i,
       a.2 + ∑ i ∈ Finset.range n, if P i then 0 else C) := by
  induction n generalizing a with
  | zero => simp
  | succ n ih =>
    rw [List.range_succ, List.foldl_append, ih]
    simp only [List.foldl_cons, List.foldl_nil]
    by_cases hp : P n
    · rw [if_pos hp]
      simp [Finset.sum_range_succ, hp]
    · rw [if_neg hp]
      simp only [Finset.sum_range_succ, if_neg hp, Prod.mk.injEq]
      constructor <;> omega

lemma rowAcc_eq (gray : List ℕ) (w x : ℕ) (wy : ℤ) (acc : ℕ × ℕ) :
    rowAcc gray w x wy acc =
      (acc.1 + ∑ j ∈ Finset.range 15,
          if (x : ℤ) - 7 + (j : ℤ) < 0 ∨ (w : ℤ) ≤ (x : ℤ) - 7 + (j : ℤ) then 0
          else gray.getD (wy.toNat * w + ((x : ℤ) - 7 + (j : ℤ)).toNat) 0,
       acc.2 + ∑ j ∈ Finset.range 15,
          if (x : ℤ) - 7 + (j : ℤ) < 0 ∨ (w : ℤ) ≤ (x : ℤ) - 7 + (j : ℤ) then 0 else 1) := by
  unfold rowAcc
  exact foldl_guard_sum_count _ _ _ 15 acc

lemma windowAcc_eq (gray : List ℕ) (w h x y : ℕ) :
    windowAcc gray w h x y =
      (∑ i ∈ Finset.range 15,
          if (y : ℤ) - 7 + (i : ℤ) < 0 ∨ (h : ℤ) ≤ (y : ℤ) - 7 + (i : ℤ) then 0
          else ∑ j ∈ Finset.range 15,
            if (x : ℤ) - 7 + (j : ℤ) < 0 ∨ (w : ℤ) ≤ (x : ℤ) - 7 + (j : ℤ) then 0
            else gray.getD ((((y : ℤ) - 7 + (i : ℤ)).toNat) * w +
              ((x : ℤ) - 7 + (j : ℤ)).toNat) 0,
       ∑ i ∈ Finset.range 15,
          if (y : ℤ) - 7 + (i : ℤ) < 0 ∨ (h : ℤ) ≤ (y : ℤ) - 7 + (i : ℤ) then 0
          else ∑ j ∈ Finset.range 15,
            if (x : ℤ) - 7 + (j : ℤ) < 0 ∨ (w : ℤ) ≤ (x : ℤ) - 7 + (j : ℤ) then 0 else 1) := by
  unfold windowAcc
  rw [List.foldl_ext _ (fun (acc : ℕ × ℕ) (i : ℕ) =>
      if (y : ℤ) - 7 + (i : ℤ) < 0 ∨ (h : ℤ) ≤ (y : ℤ) - 7 + (i : ℤ) then acc
      else
        (acc.1 + ∑ j ∈ Finset.range 15,
            if (x : ℤ) - 7 + (j : ℤ) < 0 ∨ (w : ℤ) ≤ (x : ℤ) - 7 + (j : ℤ) then 0
            else gray.getD ((((y : ℤ) - 7 + (i : ℤ)).toNat) * w +
              ((x : ℤ) - 7 + (j : ℤ)).toNat) 0,
         acc.2 + ∑ j ∈ Finset.range 15,
            if (x : ℤ) - 7 + (j : ℤ) < 0 ∨ (w : ℤ) ≤ (x : ℤ) - 7 + (j : ℤ) then 0 else 1))
    (0, 0)
    (fun acc i _ => by
      dsimp only
      by_cases hp : (y : ℤ) - 7 + (i : ℤ) < 0 ∨ (h : ℤ) ≤ (y : ℤ) - 7 + (i : ℤ)
      · simp only [if_pos hp]
      · simp only [if_neg hp, rowAcc_eq]),
    foldl_guard_sum_count]
  simp

lemma axis_sum_reindex (c n : ℕ) (F : ℕ → ℕ) :
    (∑ i ∈ Finset.range 15,
        if (c : ℤ) - 7 + (i : ℤ) < 0 ∨ (n : ℤ) ≤ (c : ℤ) - 7 + (i : ℤ) then 0
        else F (((c : ℤ) - 7 + (i : ℤ)).toNat)) =
      ∑ v ∈ Finset.range n,
        if (c : ℤ) - 7 ≤ (v : ℤ) ∧ (v : ℤ) ≤ (c : ℤ) + 7 then F v else 0 := by
  have flip :
      (∑ i ∈ Finset.range 15,
          if (c : ℤ) - 7 + (i : ℤ) < 0 ∨ (n : ℤ) ≤ (c : ℤ) - 7 + (i : ℤ) then 0
          else F (((c : ℤ) - 7 + (i : ℤ)).toNat)) =
        ∑ i ∈ (Finset.range 15).filter
            (fun (i : ℕ) =>
              ¬((c : ℤ) - 7 + (i : ℤ) < 0 ∨ (n : ℤ) ≤ (c : ℤ) - 7 + (i : ℤ))),
          F (((c : ℤ) - 7 + (i : ℤ)).toNat) := by
    rw [Finset.sum_filter]
    refine Finset.sum_congr rfl fun i _ => ?_
    by_cases hp : (c : ℤ) - 7 + (i : ℤ) < 0 ∨ (n : ℤ) ≤ (c : ℤ) - 7 + (i : ℤ) <;>
      simp [hp]
  rw [flip, ← Finset.sum_filter]
  refine Finset.sum_nbij' (fun i => (((c : ℤ) - 7 + (i : ℤ)).toNat))
    (fun v => (((v : ℤ) - (c : ℤ) + 7).toNat)) ?_ ?_ ?_ ?_ ?_
  · intro a ha
    simp only [Finset.mem_filter, Finset.mem_range, not_or, not_lt, not_le] at ha ⊢
    omega
  · intro v hv
    simp only [Finset.mem_filter, Finset.mem_range, not_or, not_lt, not_le] at hv ⊢
    omega
  · intro a ha
    simp only [Finset.mem_filter, Finset.mem_range, not_or, not_lt, not_le] at ha
    dsimp only
    omega
  · intro v hv
    simp only [Finset.mem_filter, Finset.mem_range, not_or, not_lt, not_le] at hv
    dsimp only
    omega
  · intro a _
    rfl

lemma axis_count (c n : ℕ) (K : ℕ) :
    (∑ i ∈ Finset.range 15,
        if (c : ℤ) - 7 + (i : ℤ) < 0 ∨ (n : ℤ) ≤ (c : ℤ) - 7 + (i : ℤ) then 0 else K) =
      ((Finset.range n).filter
          (fun (v : ℕ) => (c : ℤ) - 7 ≤ (v : ℤ) ∧ (v : ℤ) ≤ (c : ℤ) + 7)).card * K := by
  refine (axis_sum_reindex c n fun _ => K).trans ?_
  rw [← Finset.sum_filter, Finset.sum_const, smul_eq_mul]

/-- The 15×15 window centered on `(x, y)`, clipped to the image: the set of
in-bounds pixel coordinates at Chebyshev distance at most 7 from `(x, y)`. -/
def windowSet (w h x y : ℕ) : Finset (ℕ × ℕ) :=
  (Finset.range w ×ˢ Finset.range h).filter fun uv =>
    ((x : ℤ) - 7 ≤ (uv.1 : ℤ) ∧ (uv.1 : ℤ) ≤ (x : ℤ) + 7) ∧
      ((y : ℤ) - 7 ≤ (uv.2 : ℤ) ∧ (uv.2 : ℤ) ≤ (y : ℤ) + 7)

lemma windowSet_eq_product (w h x y : ℕ) :
    windowSet w h x y =
      ((Finset.range w).filter
          (fun (u : ℕ) => (x : ℤ) - 7 ≤ (u : ℤ) ∧ (u : ℤ) ≤ (x : ℤ) + 7)) ×ˢ
        ((Finset.range h).filter
          (fun (v : ℕ) => (y : ℤ) - 7 ≤ (v : ℤ) ∧ (v : ℤ) ≤ (y : ℤ) + 7)) := by
  ext uv
  simp only [windowSet, Finset.mem_filter, Finset.mem_product, Finset.mem_range]
  tauto

lemma windowAcc_spec (gray : List ℕ) (w h x y : ℕ) :
    windowAcc gray w h x y =
      (∑ uv ∈ windowSet w h x y, gray.getD (uv.2 * w + uv.1) 0,
       (windowSet w h x y).card) := by
  rw [windowAcc_eq, windowSet_eq_product, Finset.sum_product, Finset.card_product]
  refine Prod.ext ?_ ?_
  · dsimp only
    rw [axis_sum_reindex y h (fun v => ∑ j ∈ Finset.range 15,
        if (x : ℤ) - 7 + (j : ℤ) < 0 ∨ (w : ℤ) ≤ (x : ℤ) - 7 + (j : ℤ) then 0
        else gray.getD (v * w + ((x : ℤ) - 7 + (j : ℤ)).toNat) 0),
      ← Finset.sum_filter]
    have hinner : ∀ v : ℕ,
        (∑ j ∈ Finset.range 15,
            if (x : ℤ) - 7 + (j : ℤ) < 0 ∨ (w : ℤ) ≤ (x : ℤ) - 7 + (j : ℤ) then 0
            else gray.getD (v * w + ((x : ℤ) - 7 + (j : ℤ)).toNat) 0) =
          ∑ u ∈ (Finset.range w).filter
              (fun (u : ℕ) => (x : ℤ) - 7 ≤ (u : ℤ) ∧ (u : ℤ) ≤ (x : ℤ) + 7),
            gray.getD (v * w + u) 0 := fun v => by
      rw [axis_sum_reindex x w (fun t => gray.getD (v * w + t) 0), ← Finset.sum_filter]
    rw [Finset.sum_congr rfl fun v _ => hinner v]
    exact Finset.sum_comm
  · dsimp only
    have hinner :
        (∑ j ∈ Finset.range 15,
            if (x : ℤ) - 7 + (j : ℤ) < 0 ∨ (w : ℤ) ≤ (x : ℤ) - 7 + (j : ℤ) then 0
            else 1) =
          ((Finset.range w).filter
            (fun (u : ℕ) => (x : ℤ) - 7 ≤ (u : ℤ) ∧ (u : ℤ) ≤ (x : ℤ) + 7)).card :=
      (axis_count x w 1).trans (mul_one _)
    rw [hinner, axis_count y h, Nat.mul_comm]

/-- Specification form of the adaptive threshold, written from the claim:
for each pixel of the `width*height` grid, the local mean is the average of
the gray values over the 15×15 square window centered on it and clipped at
the image borders, the divisor being the number of in-bounds samples; the
pixel's three color channels become 0 if its gray value is strictly below
`localMean - 10` and 255 otherwise; alpha bytes are passed through. -/
def adaptiveThresholdSpec (w h : ℕ) (data : List ℕ) : List ℕ :=
  (List.range data.length).map fun idx =>
    if 4 * (w * h) ≤ idx ∨ idx % 4 = 3 then data.getD idx 0
    else
      let gray := grayValues data (w * h)
      let p := idx / 4
      let win := windowSet w h (p % w) (p / w)
      let localMean : ℚ :=
        ((∑ uv ∈ win, gray.getD (uv.2 * w + uv.1) 0 : ℕ) : ℚ) / ((win.card : ℕ) : ℚ)
      if (gray.getD p 0 : ℚ) < localMean - 10 then 0 else 255

/-- C2: `applyAdaptiveThreshold` computes exactly the per-pixel
specification: grayscale by `(R+G+B)/3`, local mean over the border-clipped
15×15 window with the number of in-bounds samples as divisor, and strict
binarization at `localMean - 10` into all three color channels. -/
theorem applyAdaptiveThreshold_eq_spec (w h : ℕ) (data : List ℕ) :
    applyAdaptiveThreshold w h data = adaptiveThresholdSpec w h data := by
  unfold applyAdaptiveThreshold adaptiveThresholdSpec
  refine List.map_congr_left fun idx _ => ?_
  by_cases hskip : 4 * (w * h) ≤ idx ∨ idx % 4 = 3
  · rw [if_pos hskip, if_pos hskip]
  · rw [if_neg hskip, if_neg hskip]
    simp only [windowAcc_spec]

example : windowAcc [110] 1 1 0 0 = (110, 1) := by decide

example : windowAcc [1, 2, 3, 4] 2 2 0 1 = (10, 4) := by decide

/-- C9: the adaptive-threshold output is binary on the color channels —
every R, G or B byte of the result is exactly 0 or 255 — and the alpha
bytes are passed through unchanged. -/
theorem applyAdaptiveThreshold_binary (w h : ℕ) (data : List ℕ)
    (hlen : data.length = 4 * (w * h)) (idx : ℕ) (hidx : idx < data.length) :
    (idx % 4 ≠ 3 →
        (applyAdaptiveThreshold w h data).getD idx 0 = 0 ∨
          (applyAdaptiveThreshold w h data).getD idx 0 = 255) ∧
      (idx % 4 = 3 →
        (applyAdaptiveThreshold w h data).getD idx 0 = data.getD idx 0) := by
  unfold applyAdaptiveThreshold
  rw [getD_map_range _ _ _ hidx]
  constructor
  · intro h3
    rw [if_neg (by omega)]
    dsimp only
    split
    · exact Or.inl rfl
    · exact Or.inr rfl
  · intro h3
    rw [if_pos (Or.inr h3)]

/-- C9 (witness): the binarity theorem applied to a concrete 1×1 image at
its red-channel byte and at its alpha byte. -/
theorem applyAdaptiveThreshold_binary_witness :
    ([100, 110, 120, 42] : List ℕ).length = 4 * (1 * 1) ∧
      (0 : ℕ) < ([100, 110, 120, 42] : List ℕ).length ∧
      ((0 % 4 ≠ 3 →
          (applyAdaptiveThreshold 1 1 [100, 110, 120, 42]).getD 0 0 = 0 ∨
            (applyAdaptiveThreshold 1 1 [100, 110, 120, 42]).getD 0 0 = 255) ∧
        (0 % 4 = 3 →
          (applyAdaptiveThreshold 1 1 [100, 110, 120, 42]).getD 0 0 =
            ([100, 110, 120, 42] : List ℕ).getD 0 0)) :=
  ⟨by decide, by decide,
    applyAdaptiveThreshold_binary 1 1 [100, 110, 120, 42] (by decide) 0 (by decide)⟩

/-- `Math.sqrt(Math.pow(p.x - q.x, 2) + Math.pow(p.y - q.y, 2))`, for an
arbitrary interpretation `sq` of the square-root function; the theorems
below hold for every `sq`, in particular for IEEE `Math.sqrt`. -/
def distJs (sq : ℚ → ℚ) (p q : Pt) : ℚ :=
  sq ((p.x - q.x) ^ 2 + (p.y - q.y) ^ 2)

/-- `EdgeDetectionService.perspectiveTransform`, modelled up to the external
OpenCV warp: `none` when the corner-count guard rejects the input
(`corners.length !== 4`); otherwise the pair `(maxWidth, maxHeight)`
computed from the ordered corners — the value the code passes as `dsize` to
`cv.warpPerspective` and hence the dimensions of the rectified output
buffer.  The image decode that precedes the geometry is taken as done. -/
def perspectiveTransformSize (sq : ℚ → ℚ) (corners : List Pt) : Option (ℚ × ℚ) :=
  if corners.length ≠ 4 then none
  else
    let oc := orderPoints corners
    let widthA := distJs sq (oc.getD 2 default) (oc.getD 3 default)
    let widthB := distJs sq (oc.getD 1 default) (oc.getD 0 default)
    let heightA := distJs sq (oc.getD 1 default) (oc.getD 2 default)
    let heightB := distJs sq (oc.getD 0 default) (oc.getD 3 default)
    some (max widthA widthB, max heightA heightB)

/-- Output sizing as the claim states it: with the canonicalized corners
top-left, top-right, bottom-right, bottom-left, the output width is the
larger of distance(bottom-left, bottom-right) and distance(top-left,
top-right), and the output height the larger of distance(top-right,
bottom-right) and distance(top-left, bottom-left). -/
def rectifiedSizeSpec (sq : ℚ → ℚ) (corners : List Pt) : Option (ℚ × ℚ) :=
  if corners.length ≠ 4 then none
  else
    let oc := orderPoints corners
    let tl := oc.getD 0 default
    let tr := oc.getD 1 default
    let br := oc.getD 2 default
    let bl := oc.getD 3 default
    some (max (distJs sq bl br) (distJs sq tl tr),
      max (distJs sq tr br) (distJs sq tl bl))

lemma distJs_symm (sq : ℚ → ℚ) (p q : Pt) : distJs sq p q = distJs sq q p :=
  congrArg sq (by ring)

/-- C5: for every quad accepted by the corner-count guard, the rectified
output buffer is sized `outputWidth × outputHeight` with `outputWidth` the
larger of the bottom and top edge lengths and `outputHeight` the larger of
the right and left edge lengths, measured on the canonicalized corners. -/
theorem perspectiveTransformSize_eq_spec (sq : ℚ → ℚ) (corners : List Pt) :
    perspectiveTransformSize sq corners = rectifiedSizeSpec sq corners := by
  unfold perspectiveTransformSize rectifiedSizeSpec
  by_cases hlen : corners.length ≠ 4
  · rw [if_pos hlen, if_pos hlen]
  · rw [if_neg hlen, if_neg hlen]
    dsimp only
    rw [distJs_symm sq ((orderPoints corners).getD 2 default)
        ((orderPoints corners).getD 3 default),
      distJs_symm sq ((orderPoints corners).getD 1 default)
        ((orderPoints corners).getD 0 default)]

/-- C6: the perspective transform returns the failure value (no rectified
image) exactly when the corners argument does not have exactly 4 points;
with exactly 4 points the guard passes and a rectified size is produced. -/
theorem perspectiveTransformSize_none_iff (sq : ℚ → ℚ) (corners : List Pt) :
    perspectiveTransformSize sq corners = none ↔ corners.length ≠ 4 := by
  unfold perspectiveTransformSize
  by_cases hlen : corners.length ≠ 4
  · simp [hlen]
  · simp [hlen]

/-- `DocumentProcessingService.loadImageToCanvas`, dimensions part:
`scale = min(1, maxWidth / img.width)`; the canvas is resized to
`img.width * scale` by `img.height * scale` (canvas dimensions truncate
to integers). -/
def loadImageToCanvasSize (imgWidth imgHeight maxWidth : ℕ) : ℕ × ℕ :=
  (⌊(imgWidth : ℚ) * min 1 ((maxWidth : ℚ) / (imgWidth : ℚ))⌋.toNat,
   ⌊(imgHeight : ℚ) * min 1 ((maxWidth : ℚ) / (imgWidth : ℚ))⌋.toNat)

/-- `DocEditorComponent` preview rendering: page previews are produced by
`loadImageToCanvas(..., 1000)` applied to the raw source image. -/
def previewSize (w h : ℕ) : ℕ × ℕ := loadImageToCanvasSize w h 1000

/-- `DocEditorComponent.save`: export pages are produced by
`loadImageToCanvas(..., 2500)` applied to the raw source image (never to
the preview buffer). -/
def exportSize (w h : ℕ) : ℕ × ℕ := loadImageToCanvasSize w h 2500

lemma loadImageToCanvasSize_le (w h maxW : ℕ) (hw : 0 < w) :
    (loadImageToCanvasSize w h maxW).1 ≤ maxW ∧
      (loadImageToCanvasSize w h maxW).2 ≤ h := by
  have hwq : ((w : ℚ)) ≠ 0 := Nat.cast_ne_zero.mpr hw.ne'
  constructor
  · unfold loadImageToCanvasSize
    dsimp only
    by_cases hc : (1 : ℚ) ≤ (maxW : ℚ) / (w : ℚ)
    · rw [min_eq_left hc, mul_one, Int.floor_natCast]
      have h1 : (w : ℚ) ≤ (maxW : ℚ) := by
        rw [le_div_iff₀ (by positivity)] at hc
        linarith
      have h2 : w ≤ maxW := by exact_mod_cast h1
      simpa using h2
    · rw [min_eq_right (le_of_not_le hc)]
      have h1 : (w : ℚ) * ((maxW : ℚ) / (w : ℚ)) = (maxW : ℚ) := by
        field_simp
      rw [h1, Int.floor_natCast]
      simp
  · unfold loadImageToCanvasSize
    dsimp only
    have hs : min 1 ((maxW : ℚ) / (w : ℚ)) ≤ 1 := min_le_left _ _
    have h1 : (h : ℚ) * min 1 ((maxW : ℚ) / (w : ℚ)) ≤ (h : ℚ) := by
      calc (h : ℚ) * min 1 ((maxW : ℚ) / (w : ℚ)) ≤ (h : ℚ) * 1 :=
            mul_le_mul_of_nonneg_left hs (by positivity)
        _ = (h : ℚ) := mul_one _
    have h2 := Int.floor_le_floor h1
    rw [Int.floor_natCast] at h2
    omega

/-- C7 (amended): the preview canvas is downscaled so that its *width* is
at most 1000 and the export canvas so that its *width* is at most 2500
(heights are scaled by the same factor and never upscaled); both are
derived from the raw source image.  The claimed bound on the larger of the
two dimensions holds only for the width. -/
theorem preview_export_width_bounds (w h : ℕ) (hw : 0 < w) :
    (previewSize w h).1 ≤ 1000 ∧ (exportSize w h).1 ≤ 2500 ∧
      (previewSize w h).2 ≤ h ∧ (exportSize w h).2 ≤ h :=
  ⟨(loadImageToCanvasSize_le w h 1000 hw).1,
   (loadImageToCanvasSize_le w h 2500 hw).1,
   (loadImageToCanvasSize_le w h 1000 hw).2,
   (loadImageToCanvasSize_le w h 2500 hw).2⟩

/-- C7 (witness): the amended bounds at a concrete portrait image. -/
theorem preview_export_width_bounds_witness :
    0 < 500 ∧
      ((previewSize 500 3000).1 ≤ 1000 ∧ (exportSize 500 3000).1 ≤ 2500 ∧
        (previewSize 500 3000).2 ≤ 3000 ∧ (exportSize 500 3000).2 ≤ 3000) :=
  ⟨by decide, preview_export_width_bounds 500 3000 (by decide)⟩

/-- C7 (counterexample): for a 500×3000 portrait source, the preview is not
downscaled at all (`scale = min(1, 1000/500) = 1`), so its maximum
dimension is 3000, exceeding the claimed 1000 bound. -/
theorem preview_max_dimension_counterexample :
    previewSize 500 3000 = (500, 3000) ∧
      1000 < max (previewSize 500 3000).1 (previewSize 500 3000).2 := by
  have h1 : previewSize 500 3000 = (500, 3000) := by
    unfold previewSize loadImageToCanvasSize
    norm_num
    decide
  exact ⟨h1, by rw [h1]; norm_num⟩

/-- Navigation target after `EdgeAdjustComponent.confirm`. -/
inductive Route where
  | editor
  | home
deriving DecidableEq

/-- Outcome of `EdgeAdjustComponent.confirm` once `cropAndTransform` has
resolved: the image stored as the active document, and the route taken. -/
structure ConfirmOutcome (α : Type) where
  activeImage : α
  route : Route

/-- Tail of `EdgeAdjustComponent.confirm`: when `cropAndTransform` yields an
image, it becomes the active document; when it fails (`null`, covering the
corner-guard rejection, decode errors and internal exceptions of
`perspectiveTransform`), the un-rectified source image becomes the active
document instead; both branches navigate to the editor. -/
def confirmResult {α : Type} (imageData : α) (cropResult : Option α) :
    ConfirmOutcome α :=
  match cropResult with
  | some cropped => ⟨cropped, Route.editor⟩
  | none => ⟨imageData, Route.editor⟩

/-- C8: a failed perspective transform is recovered locally: the caller
falls back to the un-rectified source image as the active document and
still navigates to the editor, exactly as a successful transform does with
the rectified image; no failure is surfaced. -/
theorem confirm_falls_back_to_source {α : Type} (imageData cropped : α) :
    (confirmResult imageData none).route = Route.editor ∧
      (confirmResult imageData none).activeImage = imageData ∧
      (confirmResult imageData (some cropped)).route = Route.editor ∧
      (confirmResult imageData (some cropped)).activeImage = cropped :=
  ⟨rfl, rfl, rfl, rfl⟩
